import Mathlib

/-!
# lab5-adc: push buttons of an LCD keypad shield read through the ADC

A verification development for `lab5-adc/src/main.c` (ATmega328P, avr-gcc).

The program has three pieces of behaviour:

* `main` initialises the display and configures the ADC registers;
* `ISR(TIMER1_OVF_vect)` counts timer overflows and starts a conversion on
  every third one;
* `ISR(ADC_vect)` renders the sample in decimal and hexadecimal and writes a
  button label.

Machine integers are natural numbers with explicit reduction modulo `2 ^ 8`
or `2 ^ 16`; `int` is 16 bits wide on this target.
-/

namespace Lab5Adc

/-! ## Registers of the ADC -/

/-- Bit numbers of `ADMUX` and `ADCSRA`.  The program takes them from the
device header `<avr/io.h>`, which is not among the sources, so they are
parameters of the model. -/
structure AdcBits where
  REFS1 : Nat
  REFS0 : Nat
  MUX3 : Nat
  MUX2 : Nat
  MUX1 : Nat
  MUX0 : Nat
  ADEN : Nat
  ADSC : Nat
  ADIE : Nat
  ADPS2 : Nat
  ADPS1 : Nat
  ADPS0 : Nat

/-- The bit numbers the ATmega328P data sheet gives:
`ADMUX = REFS1 REFS0 ADLAR - MUX3 MUX2 MUX1 MUX0`,
`ADCSRA = ADEN ADSC ADATE ADIF ADIE ADPS2 ADPS1 ADPS0`. -/
def atmega328p : AdcBits :=
  { REFS1 := 7, REFS0 := 6, MUX3 := 3, MUX2 := 2, MUX1 := 1, MUX0 := 0,
    ADEN := 7, ADSC := 6, ADIE := 3, ADPS2 := 2, ADPS1 := 1, ADPS0 := 0 }

/-- What the configuration code needs of the bit numbers: every one names a
bit of an 8-bit register, and within `ADMUX` the reference-selection bits are
different bits from each other and from the channel-selection bits. -/
def AdcBits.Valid (b : AdcBits) : Prop :=
  (b.REFS1 < 8 ∧ b.REFS0 < 8 ∧ b.MUX3 < 8 ∧ b.MUX2 < 8 ∧ b.MUX1 < 8 ∧ b.MUX0 < 8) ∧
  (b.ADEN < 8 ∧ b.ADSC < 8 ∧ b.ADIE < 8 ∧ b.ADPS2 < 8 ∧ b.ADPS1 < 8 ∧ b.ADPS0 < 8) ∧
  (b.REFS0 ≠ b.MUX3 ∧ b.REFS0 ≠ b.MUX2 ∧ b.REFS0 ≠ b.MUX1 ∧ b.REFS0 ≠ b.MUX0) ∧
  (b.REFS1 ≠ b.REFS0 ∧ b.REFS1 ≠ b.MUX3 ∧ b.REFS1 ≠ b.MUX2 ∧ b.REFS1 ≠ b.MUX1 ∧
    b.REFS1 ≠ b.MUX0)

instance (b : AdcBits) : Decidable b.Valid := by
  unfold AdcBits.Valid
  infer_instance

/-- The C operator `~` on an `int`: the operand is a 16-bit pattern and every
bit of it is inverted. -/
def int_not (m : Nat) : Nat := 2 ^ 16 - (m % 2 ^ 16 + 1)

/-- Assignment to an 8-bit I/O register keeps the low eight bits. -/
def reg8 (v : Nat) : Nat := v % 2 ^ 8

/-- The values of `ADMUX` and `ADCSRA`. -/
structure AdcRegs where
  ADMUX : Nat
  ADCSRA : Nat
deriving DecidableEq, Repr

/-- The ADC configuration statements of `main` (main.c lines 44-52), one
`let` per assignment. -/
def main_adc_config (b : AdcBits) (r : AdcRegs) : AdcRegs :=
  -- ADMUX = ADMUX | (1<<REFS0);
  let ADMUX := reg8 (r.ADMUX ||| (1 <<< b.REFS0))
  -- ADMUX = ADMUX & ~(1<<MUX3 | 1<<MUX2 | 1<<MUX1 | 1<<MUX0);
  let ADMUX := reg8 (ADMUX &&&
    int_not (1 <<< b.MUX3 ||| 1 <<< b.MUX2 ||| 1 <<< b.MUX1 ||| 1 <<< b.MUX0))
  -- ADCSRA = ADCSRA | (1<<ADEN);
  let ADCSRA := reg8 (r.ADCSRA ||| (1 <<< b.ADEN))
  -- ADCSRA = ADCSRA | (1<<ADIE);
  let ADCSRA := reg8 (ADCSRA ||| (1 <<< b.ADIE))
  -- ADCSRA = ADCSRA | (1<<ADPS2 | 1<<ADPS1 | 1<<ADPS0);
  let ADCSRA := reg8 (ADCSRA ||| (1 <<< b.ADPS2 ||| 1 <<< b.ADPS1 ||| 1 <<< b.ADPS0))
  { ADMUX := ADMUX, ADCSRA := ADCSRA }

/-! ## Timer/Counter1 overflow handler -/

/-- What `ISR(TIMER1_OVF_vect)` reads and writes: its static counter
(`uint8_t`) and the register `ADCSRA`. -/
structure TimerState where
  no_of_overflows : Nat
  ADCSRA : Nat
deriving DecidableEq, Repr

/-- One run of `ISR(TIMER1_OVF_vect)` (main.c lines 80-92).  The second
component tells whether this run executed `ADCSRA = ADCSRA | (1 << ADSC)`,
that is, whether it started a conversion. -/
def ISR_TIMER1_OVF (ADSC : Nat) (s : TimerState) : TimerState × Bool :=
  -- no_of_overflows ++;
  let n := (s.no_of_overflows + 1) % 2 ^ 8
  -- if (no_of_overflows >= 3)
  if n ≥ 3 then
    ({ no_of_overflows := 0, ADCSRA := reg8 (s.ADCSRA ||| (1 <<< ADSC)) }, true)
  else
    ({ no_of_overflows := n, ADCSRA := s.ADCSRA }, false)

/-- The first `n` timer-overflow events, starting in state `s`: the state
after the `n`-th event and, event by event, whether a conversion was
started. -/
def overflow_events (ADSC : Nat) (s : TimerState) : Nat → TimerState × List Bool
  | 0 => (s, [])
  | n + 1 =>
    let before := overflow_events ADSC s n
    let step := ISR_TIMER1_OVF ADSC before.1
    (step.1, before.2 ++ [step.2])

/-- The state in which the first overflow event finds the handler:
`static uint8_t no_of_overflows = 0`. -/
def timer_init (ADCSRA : Nat) : TimerState :=
  { no_of_overflows := 0, ADCSRA := ADCSRA }

/-! ## Data memory and C strings -/

/-- The data memory as the handler sees it: address to byte.  Addresses are
natural numbers; the buffer of the handler lies on the stack in SRAM, far
below the end of the 16-bit address space, so address arithmetic does not
wrap. -/
abbrev Ram := Nat → Char

/-- The terminating byte of a C string. -/
def NUL : Char := Char.ofNat 0

/-- Store one byte. -/
def poke (ram : Ram) (a : Nat) (c : Char) : Ram :=
  fun j => if j = a then c else ram j

/-- Store the characters of `s` from address `a` on, then the terminating
`NUL`: what a library routine does that writes a C string to `a`. -/
def store_string (ram : Ram) (a : Nat) : List Char → Ram
  | [] => poke ram a NUL
  | c :: cs => store_string (poke ram a c) (a + 1) cs

/-- Read the C string at address `a`: the bytes up to the first `NUL`, as
the loop `while ((c = *s++))` of a string routine does.  `fuel` bounds the
number of bytes inspected; `none` means no `NUL` was found among them. -/
def load_string (ram : Ram) : Nat → Nat → Option (List Char)
  | 0, _ => none
  | fuel + 1, a =>
    if ram a = NUL then some []
    else (load_string ram fuel (a + 1)).map (fun cs => ram a :: cs)

/-- The C string a `char *` argument denotes; the data address space has
`2 ^ 16` bytes. -/
def c_string (ram : Ram) (a : Nat) : Option (List Char) :=
  load_string ram (2 ^ 16) a

/-! ## `itoa` -/

/-- The character for the digit `d`: `'0' + d` up to 9, lower-case letters
from `'a'` for 10 and above. -/
def digit_char (d : Nat) : Char :=
  if d < 10 then Char.ofNat (48 + d) else Char.ofNat (87 + d)

/-- The division loop of `itoa`, a `do ... while (val != 0)`: it produces the
digits of `val` least significant first.  A 16-bit value has at most 16
digits in any radix from 2 on, which bounds the number of rounds. -/
def itoa_loop (radix : Nat) : Nat → Nat → List Char
  | 0, _ => []
  | fuel + 1, val =>
    digit_char (val % radix) ::
      (if val / radix = 0 then [] else itoa_loop radix fuel (val / radix))

/-- Modelled from the spec: `itoa` belongs to the C library (`<stdlib.h>` of
avr-libc) and its code is not among the sources.  The spec has the handler
render the sample "as a decimal text string" and "as a hexadecimal text
string", with 95 giving "95" and "5f" and 1023 giving "1023" and "3ff".  This
is the text `itoa(val, s, radix)` produces for the 16-bit pattern `val` of its
`int` argument: nothing for a radix outside 2..36, a minus sign and the
magnitude for a negative value in radix 10, the digits of the unsigned
pattern otherwise, most significant digit first. -/
def itoa_text (val radix : Nat) : List Char :=
  if radix < 2 ∨ 36 < radix then []
  else if radix = 10 ∧ 2 ^ 15 ≤ val % 2 ^ 16 then
    '-' :: (itoa_loop radix 16 (2 ^ 16 - val % 2 ^ 16)).reverse
  else (itoa_loop radix 16 (val % 2 ^ 16)).reverse

/-- Modelled from the spec: the effect of `itoa(val, s, radix)` on memory
(the routine itself is library code, see `itoa_text`): the text and its
terminating `NUL` are stored from address `s` on.  The caller provides the
storage; `itoa` does not know its size. -/
def itoa (val : Nat) (s : Nat) (radix : Nat) (ram : Ram) : Ram :=
  store_string ram s (itoa_text val radix)

/-! ## Character display -/

/-- Modelled from the spec: the display driver (`lcd.h`, Peter Fleury's LCD
library) is not among the sources.  The spec (section 4.3) gives it three
operations, initialize, set-cursor(column, row) and write-text(string), and
no state beyond the cursor position.  The state here is the character in
each cell (column, row), the cursor, and a record of the `lcd_puts` calls
made so far, each with the position it started at. -/
structure Lcd where
  cells : Nat → Nat → Char
  x : Nat
  y : Nat
  log : List (Nat × Nat × List Char)

/-- Modelled from the spec: `lcd_init` of the absent display driver leaves a
blank display with the cursor at the origin. -/
def lcd_init : Lcd :=
  { cells := fun _ _ => ' ', x := 0, y := 0, log := [] }

/-- Modelled from the spec: `lcd_gotoxy(x, y)` of the absent display driver
sets the cursor to column `x` of row `y`. -/
def lcd_gotoxy (x y : Nat) (d : Lcd) : Lcd :=
  { d with x := x, y := y }

/-- Modelled from the spec: `lcd_putc(c)` of the absent display driver writes
`c` to the cell under the cursor and moves the cursor one column on. -/
def lcd_putc (d : Lcd) (c : Char) : Lcd :=
  { d with
    cells := fun col row => if col = d.x ∧ row = d.y then c else d.cells col row
    x := d.x + 1 }

/-- Modelled from the spec: `lcd_puts(s)` of the absent display driver writes
the characters of `s` one after the other from the cursor on. -/
def lcd_puts (s : List Char) (d : Lcd) : Lcd :=
  { s.foldl lcd_putc d with log := d.log ++ [(d.x, d.y, s)] }

/-- The `n` cells from column `x` on in row `y`. -/
def lcd_read (d : Lcd) (x y n : Nat) : List Char :=
  (List.range n).map (fun i => d.cells (x + i) y)

/-- Left-align `s` in a field of `n` cells, filling up with spaces. -/
def pad_right (n : Nat) (s : List Char) : List Char :=
  s ++ List.replicate (n - s.length) ' '

/-- The button label: the five cells from (8, 1) on, which the handler blanks
before it writes a label. -/
def label (d : Lcd) : List Char := lcd_read d 8 1 5

/-- The display part of `main` (main.c lines 34-39). -/
def main_display : Lcd :=
  let d := lcd_init
  let d := lcd_puts "value:".toList (lcd_gotoxy 1 0 d)
  let d := lcd_puts "key:".toList (lcd_gotoxy 3 1 d)
  let d := lcd_puts "a".toList (lcd_gotoxy 8 0 d)
  let d := lcd_puts "b".toList (lcd_gotoxy 13 0 d)
  let d := lcd_puts "c".toList (lcd_gotoxy 8 1 d)
  d

/-! ## ADC complete handler -/

/-- The C operator `<` on two integers (a pointer compared with an integer is
compared by its address): the result is the `int` 1 or 0. -/
def c_lt (a b : Nat) : Nat := if a < b then 1 else 0

/-- The C operator `==`, with result 1 or 0. -/
def c_eq (a b : Nat) : Nat := if a = b then 1 else 0

/-- Blank the label field and write `name` into it: the body shared by the
five `if` statements of the handler. -/
def write_label (name : String) (d : Lcd) : Lcd :=
  let d := lcd_gotoxy 8 1 d
  let d := lcd_puts "     ".toList d
  let d := lcd_gotoxy 8 1 d
  lcd_puts name.toList d

/-- The call `itoa(val, s, radix)` where `s` is an array of `size` bytes.
It is defined when the text and its `NUL` fit the array.  Otherwise `itoa`
stores a byte behind the array; which object that byte belongs to (the local
`value`, a saved register, a return address) the source does not fix, so
nothing is known of the run from that store on: `none`. -/
def itoa_array (size val s radix : Nat) (ram : Ram) : Option Ram :=
  if (itoa_text val radix).length + 1 ≤ size then some (itoa val s radix ram) else none

/-- The five `if` statements that end `ISR(ADC_vect)` (main.c lines 122-151).
They read neither the sample nor the memory: `string` in the conditions is
the address of the array, and `80<string< 110` parses as
`(80 < string) < 110`. -/
def ISR_ADC_labels (string : Nat) (lcd : Lcd) : Lcd :=
  -- if (80<string< 110) ...
  let lcd := if c_lt (c_lt 80 string) 110 ≠ 0 then write_label "up" lcd else lcd
  -- if (240<string< 260) ...
  let lcd := if c_lt (c_lt 240 string) 260 ≠ 0 then write_label "down" lcd else lcd
  -- if (400<string< 420) ...
  let lcd := if c_lt (c_lt 400 string) 420 ≠ 0 then write_label "left" lcd else lcd
  -- if (630<string< 650) ...
  let lcd := if c_lt (c_lt 630 string) 650 ≠ 0 then write_label "right" lcd else lcd
  -- if (string == 1023) ...
  if c_eq string 1023 ≠ 0 then write_label "none" lcd else lcd

/-- One run of `ISR(ADC_vect)` (main.c lines 98-153).  `ADC` is the content
of the result register pair and `string` the address of the local array
`char string[4]`.  The result is `none` when the run is not defined by the
source: an `itoa` call stores behind the four bytes of `string`, or an
`lcd_puts(string)` finds no `NUL`.  As long as every store stays inside the
array, no store reaches the local `value`, wherever the compiler keeps it. -/
def ISR_ADC (ADC : Nat) (string : Nat) (ram : Ram) (lcd : Lcd) : Option (Ram × Lcd) := do
  -- value = ADC;
  let value := ADC % 2 ^ 16
  -- itoa(value, string, 10); lcd_gotoxy(8, 0); lcd_puts("    ");
  let ram ← itoa_array 4 value string 10 ram
  let lcd := lcd_gotoxy 8 0 lcd
  let lcd := lcd_puts "    ".toList lcd
  -- lcd_gotoxy(8, 0); lcd_puts(string);
  let lcd := lcd_gotoxy 8 0 lcd
  let text ← c_string ram string
  let lcd := lcd_puts text lcd
  -- itoa(value, string, 16); lcd_gotoxy(13, 0); lcd_puts("   ");
  let ram ← itoa_array 4 value string 16 ram
  let lcd := lcd_gotoxy 13 0 lcd
  let lcd := lcd_puts "   ".toList lcd
  -- lcd_gotoxy(13, 0); lcd_puts(string);
  let lcd := lcd_gotoxy 13 0 lcd
  let text ← c_string ram string
  let lcd := lcd_puts text lcd
  -- itoa(value, string, 10);
  let ram ← itoa_array 4 value string 10 ram
  -- the five if statements
  pure (ram, ISR_ADC_labels string lcd)

/-- The display after the two value fields have been written: the first
twelve driver calls of `ISR(ADC_vect)`, with the texts `dec` and `hex` that
the two `lcd_puts(string)` read. -/
def write_values (dec hex : List Char) (lcd : Lcd) : Lcd :=
  let lcd := lcd_puts "    ".toList (lcd_gotoxy 8 0 lcd)
  let lcd := lcd_puts dec (lcd_gotoxy 8 0 lcd)
  let lcd := lcd_puts "   ".toList (lcd_gotoxy 13 0 lcd)
  lcd_puts hex (lcd_gotoxy 13 0 lcd)

/-- The display after the five `if` statements of `ISR(ADC_vect)` once their
conditions are evaluated: the first four are taken, the last one when the
address of `string` is 1023. -/
def write_labels (string : Nat) (lcd : Lcd) : Lcd :=
  let lcd := write_label "up" lcd
  let lcd := write_label "down" lcd
  let lcd := write_label "left" lcd
  let lcd := write_label "right" lcd
  if string = 1023 then write_label "none" lcd else lcd

/-! ## Reading numbers back from text -/

/-- The value of a digit character, decimal digits and letters `a`-`f` in
either case. -/
def digit_value (c : Char) : Option Nat :=
  if 48 ≤ c.toNat ∧ c.toNat ≤ 57 then some (c.toNat - 48)
  else if 97 ≤ c.toNat ∧ c.toNat ≤ 102 then some (c.toNat - 87)
  else if 65 ≤ c.toNat ∧ c.toNat ≤ 70 then some (c.toNat - 55)
  else none

/-- One step of reading a number in the given radix: `none` for a character
that is not a digit of the radix. -/
def parse_step (radix : Nat) (acc : Nat) (c : Char) : Option Nat :=
  match digit_value c with
  | some d => if d < radix then some (acc * radix + d) else none
  | none => none

/-- Read a non-empty string of digits, most significant digit first. -/
def parse_radix (radix : Nat) (s : List Char) : Option Nat :=
  if s = [] then none else s.foldlM (parse_step radix) 0

/-- The `decimal_to_int` of the spec's consistency property. -/
def decimal_to_int (s : List Char) : Option Nat := parse_radix 10 s

/-- The `hex_to_int` of the spec's consistency property. -/
def hex_to_int (s : List Char) : Option Nat := parse_radix 16 s

/-! ## Proofs: ADC configuration -/

theorem testBit_one_shiftLeft (k i : Nat) : (1 <<< k).testBit i = decide (k = i) := by
  rw [Nat.one_shiftLeft, Nat.testBit_two_pow]

theorem testBit_int_not (m i : Nat) :
    (int_not m).testBit i = (decide (i < 16) && !(m % 2 ^ 16).testBit i) := by
  unfold int_not
  exact Nat.testBit_two_pow_sub_succ (Nat.mod_lt _ (by norm_num)) i

theorem testBit_reg8 (v i : Nat) : (reg8 v).testBit i = (decide (i < 8) && v.testBit i) := by
  unfold reg8
  exact Nat.testBit_mod_two_pow v 8 i

theorem testBit_of_lt_256 {v : Nat} (h : v < 256) {i : Nat} (hi : 8 ≤ i) :
    v.testBit i = false := by
  apply Nat.testBit_lt_two_pow
  calc v < 2 ^ 8 := by simpa using h
    _ ≤ 2 ^ i := Nat.pow_le_pow_right (by norm_num) hi

/-- Claim C10: whatever `ADMUX` and `ADCSRA` hold on entry, after the
configuration statements of `main` bit REFS0 of `ADMUX` is set, bits
MUX3..MUX0 are clear and every other bit of `ADMUX` is as before; bits ADEN,
ADIE, ADPS2, ADPS1, ADPS0 of `ADCSRA` are set and every other bit of `ADCSRA`
is as before; from the reset state (both registers 0) REFS1:REFS0 reads 01. -/
theorem main_adc_config_spec (b : AdcBits) (hb : b.Valid) (ADMUX ADCSRA : Nat)
    (hM : ADMUX < 256) (hA : ADCSRA < 256) :
    ((main_adc_config b ⟨ADMUX, ADCSRA⟩).ADMUX.testBit b.REFS0 = true ∧
      (main_adc_config b ⟨ADMUX, ADCSRA⟩).ADMUX.testBit b.MUX3 = false ∧
      (main_adc_config b ⟨ADMUX, ADCSRA⟩).ADMUX.testBit b.MUX2 = false ∧
      (main_adc_config b ⟨ADMUX, ADCSRA⟩).ADMUX.testBit b.MUX1 = false ∧
      (main_adc_config b ⟨ADMUX, ADCSRA⟩).ADMUX.testBit b.MUX0 = false ∧
      ∀ i, i ≠ b.REFS0 → i ≠ b.MUX3 → i ≠ b.MUX2 → i ≠ b.MUX1 → i ≠ b.MUX0 →
        (main_adc_config b ⟨ADMUX, ADCSRA⟩).ADMUX.testBit i = ADMUX.testBit i) ∧
    ((main_adc_config b ⟨ADMUX, ADCSRA⟩).ADCSRA.testBit b.ADEN = true ∧
      (main_adc_config b ⟨ADMUX, ADCSRA⟩).ADCSRA.testBit b.ADIE = true ∧
      (main_adc_config b ⟨ADMUX, ADCSRA⟩).ADCSRA.testBit b.ADPS2 = true ∧
      (main_adc_config b ⟨ADMUX, ADCSRA⟩).ADCSRA.testBit b.ADPS1 = true ∧
      (main_adc_config b ⟨ADMUX, ADCSRA⟩).ADCSRA.testBit b.ADPS0 = true ∧
      ∀ i, i ≠ b.ADEN → i ≠ b.ADIE → i ≠ b.ADPS2 → i ≠ b.ADPS1 → i ≠ b.ADPS0 →
        (main_adc_config b ⟨ADMUX, ADCSRA⟩).ADCSRA.testBit i = ADCSRA.testBit i) ∧
    ((main_adc_config b ⟨0, 0⟩).ADMUX.testBit b.REFS1 = false ∧
      (main_adc_config b ⟨0, 0⟩).ADMUX.testBit b.REFS0 = true) := by
  obtain ⟨⟨h1, h2, h3, h4, h5, h6⟩, ⟨g1, g2, g3, g4, g5, g6⟩, ⟨d1, d2, d3, d4⟩,
    ⟨e1, e2, e3, e4, e5⟩⟩ := hb
  have zM : ∀ i, ¬ i < 8 → ADMUX.testBit i = false := fun i hi =>
    testBit_of_lt_256 hM (by omega)
  have zA : ∀ i, ¬ i < 8 → ADCSRA.testBit i = false := fun i hi =>
    testBit_of_lt_256 hA (by omega)
  refine ⟨⟨?_, ?_, ?_, ?_, ?_, ?_⟩, ⟨?_, ?_, ?_, ?_, ?_, ?_⟩, ?_, ?_⟩
  all_goals
    simp only [main_adc_config, testBit_reg8, testBit_int_not, Nat.testBit_or,
      Nat.testBit_and, testBit_one_shiftLeft, Nat.testBit_mod_two_pow, Nat.zero_testBit]
  all_goals try (intro i i1 i2 i3 i4 i5)
  all_goals try (by_cases hi : i < 8)
  all_goals simp [*, Ne.symm, show ∀ k, k < 8 → k < 16 from fun k hk => by omega]

/-- Witness for C10 on the ATmega328P bit numbers, entered with
`ADMUX = 0xAF` (channel bits and ADLAR set) and `ADCSRA = 0x20`. -/
theorem main_adc_config_spec_witness :
    atmega328p.Valid ∧ 0xAF < 256 ∧ 0x20 < 256 ∧
    (((main_adc_config atmega328p ⟨0xAF, 0x20⟩).ADMUX.testBit atmega328p.REFS0 = true ∧
      (main_adc_config atmega328p ⟨0xAF, 0x20⟩).ADMUX.testBit atmega328p.MUX3 = false ∧
      (main_adc_config atmega328p ⟨0xAF, 0x20⟩).ADMUX.testBit atmega328p.MUX2 = false ∧
      (main_adc_config atmega328p ⟨0xAF, 0x20⟩).ADMUX.testBit atmega328p.MUX1 = false ∧
      (main_adc_config atmega328p ⟨0xAF, 0x20⟩).ADMUX.testBit atmega328p.MUX0 = false ∧
      ∀ i, i ≠ atmega328p.REFS0 → i ≠ atmega328p.MUX3 → i ≠ atmega328p.MUX2 → i ≠ atmega328p.MUX1 → i ≠ atmega328p.MUX0 →
        (main_adc_config atmega328p ⟨0xAF, 0x20⟩).ADMUX.testBit i = Nat.testBit 0xAF i) ∧
    ((main_adc_config atmega328p ⟨0xAF, 0x20⟩).ADCSRA.testBit atmega328p.ADEN = true ∧
      (main_adc_config atmega328p ⟨0xAF, 0x20⟩).ADCSRA.testBit atmega328p.ADIE = true ∧
      (main_adc_config atmega328p ⟨0xAF, 0x20⟩).ADCSRA.testBit atmega328p.ADPS2 = true ∧
      (main_adc_config atmega328p ⟨0xAF, 0x20⟩).ADCSRA.testBit atmega328p.ADPS1 = true ∧
      (main_adc_config atmega328p ⟨0xAF, 0x20⟩).ADCSRA.testBit atmega328p.ADPS0 = true ∧
      ∀ i, i ≠ atmega328p.ADEN → i ≠ atmega328p.ADIE → i ≠ atmega328p.ADPS2 → i ≠ atmega328p.ADPS1 → i ≠ atmega328p.ADPS0 →
        (main_adc_config atmega328p ⟨0xAF, 0x20⟩).ADCSRA.testBit i = Nat.testBit 0x20 i) ∧
    ((main_adc_config atmega328p ⟨0, 0⟩).ADMUX.testBit atmega328p.REFS1 = false ∧
      (main_adc_config atmega328p ⟨0, 0⟩).ADMUX.testBit atmega328p.REFS0 = true)) :=
  ⟨by decide, by decide, by decide,
    main_adc_config_spec atmega328p (by decide) 0xAF 0x20 (by decide) (by decide)⟩

/-! ## Proofs: timer overflow handler -/

theorem overflow_events_counter (ADSC : Nat) (s : TimerState) (h : s.no_of_overflows = 0)
    (n : Nat) : (overflow_events ADSC s n).1.no_of_overflows = n % 3 := by
  induction n with
  | zero => simpa [overflow_events] using h
  | succ n ih =>
    simp only [overflow_events, ISR_TIMER1_OVF, ih]
    have h3 : n % 3 < 3 := Nat.mod_lt _ (by norm_num)
    have h256 : (n % 3 + 1) % 2 ^ 8 = n % 3 + 1 := Nat.mod_eq_of_lt (by norm_num; omega)
    rw [h256]
    split <;> simp only <;> omega

theorem overflow_events_starts (ADSC : Nat) (s : TimerState) (h : s.no_of_overflows = 0)
    (n : Nat) :
    (overflow_events ADSC s n).2 = (List.range n).map (fun i => decide (3 ∣ i + 1)) := by
  induction n with
  | zero => simp [overflow_events]
  | succ n ih =>
    have hc := overflow_events_counter ADSC s h n
    simp only [overflow_events, ISR_TIMER1_OVF, ih, hc, List.range_succ, List.map_append,
      List.map_cons, List.map_nil]
    have h3 : n % 3 < 3 := Nat.mod_lt _ (by norm_num)
    have h256 : (n % 3 + 1) % 2 ^ 8 = n % 3 + 1 := Nat.mod_eq_of_lt (by norm_num; omega)
    rw [h256]
    congr 2
    split
    · rename_i hge
      have : 3 ∣ n + 1 := by omega
      simp [this]
    · rename_i hge
      have : ¬ 3 ∣ n + 1 := by omega
      simp [this]

theorem count_multiples_of_three (n : Nat) :
    ((List.range n).map (fun i => decide (3 ∣ i + 1))).count true = n / 3 := by
  induction n with
  | zero => simp
  | succ n ih =>
    rw [List.range_succ, List.map_append, List.count_append, ih]
    by_cases h : 3 ∣ n + 1
    · simp [h]; omega
    · simp [h]; omega

/-- Claim C4: starting from `no_of_overflows = 0`, for every `n` the first
`n` timer-overflow events start a conversion exactly on the events whose
number is a multiple of 3 (the list entry of event `i + 1` is `true` iff
`3 ∣ i + 1`), which makes `n / 3` starts in all, and the counter left after
the `n`-th event is `n % 3`. -/
theorem timer_sampling_cadence (ADSC ADCSRA n : Nat) :
    (overflow_events ADSC (timer_init ADCSRA) n).2 =
        (List.range n).map (fun i => decide (3 ∣ i + 1)) ∧
      (overflow_events ADSC (timer_init ADCSRA) n).2.count true = n / 3 ∧
      (overflow_events ADSC (timer_init ADCSRA) n).1.no_of_overflows = n % 3 := by
  refine ⟨overflow_events_starts ADSC _ rfl n, ?_, overflow_events_counter ADSC _ rfl n⟩
  rw [overflow_events_starts ADSC _ rfl n]
  exact count_multiples_of_three n

/-- Claim C7: the counter is 0 in the initial state, and for every `uint8_t`
value it may hold on entry (255 included, where the increment wraps to 0)
the value `ISR(TIMER1_OVF_vect)` leaves in it is at most 2. -/
theorem timer_counter_bound (ADSC : Nat) (s : TimerState) (_h : s.no_of_overflows < 256) :
    (timer_init s.ADCSRA).no_of_overflows ≤ 2 ∧
      (ISR_TIMER1_OVF ADSC s).1.no_of_overflows ≤ 2 := by
  refine ⟨by simp [timer_init], ?_⟩
  simp only [ISR_TIMER1_OVF]
  split
  · simp
  · simp only
    omega

/-- Witness for C7 at the wrapping entry value 255. -/
theorem timer_counter_bound_witness :
    (255 < 256) ∧ (timer_init 0).no_of_overflows ≤ 2 ∧
      (ISR_TIMER1_OVF 6 ⟨255, 0⟩).1.no_of_overflows ≤ 2 :=
  ⟨by decide, timer_counter_bound 6 ⟨255, 0⟩ (by decide)⟩

/-! ## Proofs: C strings and `itoa` -/

theorem digit_char_ne_NUL : ∀ d, d < 36 → digit_char d ≠ NUL := by decide

theorem digit_value_digit_char : ∀ d, d < 16 → digit_value (digit_char d) = some d := by decide

theorem store_string_below (s : List Char) (ram : Ram) (a j : Nat) (h : j < a) :
    store_string ram a s j = ram j := by
  induction s generalizing ram a with
  | nil => simp [store_string, poke]; omega
  | cons c cs ih =>
    rw [store_string, ih _ _ (by omega)]
    simp [poke]; omega

theorem load_store_string (s : List Char) (hs : ∀ c ∈ s, c ≠ NUL) (ram : Ram) (a fuel : Nat)
    (hf : s.length < fuel) : load_string (store_string ram a s) fuel a = some s := by
  induction s generalizing ram a fuel with
  | nil =>
    obtain ⟨f, rfl⟩ : ∃ f, fuel = f + 1 := ⟨fuel - 1, by simp at hf; omega⟩
    simp [load_string, store_string, poke]
  | cons c cs ih =>
    obtain ⟨f, rfl⟩ : ∃ f, fuel = f + 1 := ⟨fuel - 1, by simp at hf; omega⟩
    have hc : c ≠ NUL := hs c (by simp)
    have h0 : store_string (poke ram a c) (a + 1) cs a = c := by
      rw [store_string_below _ _ _ _ (by omega)]; simp [poke]
    rw [store_string, load_string, h0, if_neg hc,
      ih (fun x hx => hs x (by simp [hx])) _ _ _ (by simp at hf; omega)]
    rfl

theorem itoa_loop_ne_nil (radix fuel val : Nat) : itoa_loop radix (fuel + 1) val ≠ [] := by
  simp [itoa_loop]

theorem itoa_loop_length_le (radix : Nat) (fuel : Nat) :
    ∀ k val, 1 ≤ k → k ≤ fuel → val < radix ^ k → (itoa_loop radix fuel val).length ≤ k := by
  induction fuel with
  | zero => intro k val h1 h2; omega
  | succ fuel ih =>
    intro k val h1 h2 hv
    rw [itoa_loop]
    by_cases hq : val / radix = 0
    · simp [hq]; omega
    · have hk : 2 ≤ k := by
        by_contra hlt
        have hk1 : k = 1 := by omega
        rw [hk1, pow_one] at hv
        exact hq (Nat.div_eq_of_lt hv)
      have hdiv : val / radix < radix ^ (k - 1) := by
        apply Nat.div_lt_of_lt_mul
        calc val < radix ^ k := hv
          _ = radix ^ (k - 1 + 1) := by congr 1; omega
          _ = radix * radix ^ (k - 1) := by rw [pow_succ]; ring
      have := ih (k - 1) (val / radix) (by omega) (by omega) hdiv
      simp only [hq, if_false, List.length_cons]
      omega

theorem itoa_loop_no_NUL (radix : Nat) (h0 : 0 < radix) (hr : radix ≤ 36) (fuel : Nat) :
    ∀ val, ∀ c ∈ itoa_loop radix fuel val, c ≠ NUL := by
  induction fuel with
  | zero => intro val c hc; simp [itoa_loop] at hc
  | succ fuel ih =>
    intro val c hc
    rw [itoa_loop] at hc
    have hd : digit_char (val % radix) ≠ NUL :=
      digit_char_ne_NUL _ (lt_of_lt_of_le (Nat.mod_lt _ h0) hr)
    rcases List.mem_cons.mp hc with h | h
    · rw [h]; exact hd
    · by_cases hq : val / radix = 0
      · simp [hq] at h
      · simp only [hq, if_false] at h
        exact ih _ c h

theorem itoa_loop_value (radix : Nat) (hr : 2 ≤ radix) (hr16 : radix ≤ 16) (fuel : Nat) :
    ∀ val, val < radix ^ fuel → 0 < fuel →
      List.foldrM (fun c acc => parse_step radix acc c) 0 (itoa_loop radix fuel val) =
        some val := by
  induction fuel with
  | zero => intro val _ h; omega
  | succ fuel ih =>
    intro val hv _
    have hm : val % radix < radix := Nat.mod_lt _ (by omega)
    have hstep : ∀ acc, parse_step radix acc (digit_char (val % radix)) =
        some (acc * radix + val % radix) := by
      intro acc
      simp [parse_step, digit_value_digit_char _ (lt_of_lt_of_le hm hr16), hm]
    rw [itoa_loop, List.foldrM_cons]
    by_cases hq : val / radix = 0
    · simp only [hq, if_true, List.foldrM_nil]
      show parse_step radix 0 _ = _
      rw [hstep]
      have := Nat.div_add_mod val radix
      rw [hq] at this
      simp at this
      simp [this]
    · simp only [hq, if_false]
      have hf : 0 < fuel := by
        by_contra h0
        have : fuel = 0 := by omega
        subst this
        simp at hv
        exact hq (Nat.div_eq_of_lt (by omega))
      have hdiv : val / radix < radix ^ fuel := by
        apply Nat.div_lt_of_lt_mul
        calc val < radix ^ (fuel + 1) := hv
          _ = radix * radix ^ fuel := by rw [pow_succ]; ring
      rw [ih _ hdiv hf]
      show parse_step radix (val / radix) _ = _
      rw [hstep]
      congr 1
      have := Nat.div_add_mod val radix
      rw [Nat.mul_comm] at this
      exact this

theorem parse_radix_itoa_loop (radix : Nat) (hr : 2 ≤ radix) (hr16 : radix ≤ 16)
    (val : Nat) (hv : val < radix ^ 16) :
    parse_radix radix (itoa_loop radix 16 val).reverse = some val := by
  unfold parse_radix
  have hne : (itoa_loop radix 16 val).reverse ≠ [] := by
    simpa using itoa_loop_ne_nil radix 15 val
  rw [if_neg hne, List.foldlM_reverse]
  exact itoa_loop_value radix hr hr16 16 val hv (by norm_num)

theorem itoa_text_of_lt (val radix : Nat) (hr : 2 ≤ radix) (hr36 : radix ≤ 36)
    (hv : val < 2 ^ 15) : itoa_text val radix = (itoa_loop radix 16 val).reverse := by
  have h16 : val % 2 ^ 16 = val := Nat.mod_eq_of_lt (by omega)
  unfold itoa_text
  rw [h16, if_neg (by omega), if_neg (by omega)]

theorem itoa_text_no_NUL (val radix : Nat) : ∀ c ∈ itoa_text val radix, c ≠ NUL := by
  intro c hc
  unfold itoa_text at hc
  split at hc
  · simp at hc
  · rename_i hr
    have h0 : 0 < radix := by omega
    have h36 : radix ≤ 36 := by omega
    split at hc
    · rcases List.mem_cons.mp hc with h | h
      · rw [h]; decide
      · exact itoa_loop_no_NUL radix h0 h36 16 _ c (List.mem_reverse.mp h)
    · exact itoa_loop_no_NUL radix h0 h36 16 _ c (List.mem_reverse.mp hc)

theorem itoa_loop_length_le_fuel (radix fuel val : Nat) :
    (itoa_loop radix fuel val).length ≤ fuel := by
  induction fuel generalizing val with
  | zero => simp [itoa_loop]
  | succ fuel ih =>
    rw [itoa_loop]
    split
    · simp
    · simp only [List.length_cons]
      have := ih (val / radix)
      omega

theorem itoa_text_length_le (val radix : Nat) : (itoa_text val radix).length ≤ 17 := by
  unfold itoa_text
  split
  · simp
  · split
    · have := itoa_loop_length_le_fuel radix 16 (2 ^ 16 - val % 2 ^ 16)
      simp only [List.length_cons, List.length_reverse]
      omega
    · have := itoa_loop_length_le_fuel radix 16 (val % 2 ^ 16)
      simp only [List.length_reverse]
      omega

/-- Reading back the string `itoa` has stored gives its text: `itoa` always
terminates the text with `NUL` within 18 bytes, so `lcd_puts(string)` finds
the end. -/
theorem c_string_itoa (val s radix : Nat) (ram : Ram) :
    c_string (itoa val s radix ram) s = some (itoa_text val radix) := by
  unfold c_string itoa
  apply load_store_string _ (itoa_text_no_NUL val radix)
  have := itoa_text_length_le val radix
  calc (itoa_text val radix).length < 18 := by omega
    _ ≤ 2 ^ 16 := by norm_num

theorem itoa_text_dec_length (val : Nat) (hv : val ≤ 1023) :
    1 ≤ (itoa_text val 10).length ∧ (itoa_text val 10).length ≤ 4 := by
  rw [itoa_text_of_lt val 10 (by norm_num) (by norm_num) (by omega), List.length_reverse]
  constructor
  · have := itoa_loop_ne_nil 10 15 val
    exact Nat.succ_le_of_lt (List.length_pos.mpr this)
  · exact itoa_loop_length_le 10 16 4 val (by norm_num) (by norm_num) (by omega)

theorem itoa_text_hex_length (val : Nat) (hv : val ≤ 1023) :
    1 ≤ (itoa_text val 16).length ∧ (itoa_text val 16).length ≤ 3 := by
  rw [itoa_text_of_lt val 16 (by norm_num) (by norm_num) (by omega), List.length_reverse]
  constructor
  · have := itoa_loop_ne_nil 16 15 val
    exact Nat.succ_le_of_lt (List.length_pos.mpr this)
  · exact itoa_loop_length_le 16 16 3 val (by norm_num) (by norm_num) (by omega)

theorem store_string_outside (s : List Char) (ram : Ram) (a j : Nat)
    (h : j < a ∨ a + s.length < j) : store_string ram a s j = ram j := by
  induction s generalizing ram a with
  | nil =>
    simp only [store_string, poke, List.length_nil, Nat.add_zero] at h ⊢
    rw [if_neg (by omega)]
  | cons c cs ih =>
    simp only [List.length_cons] at h
    rw [store_string, ih _ _ (by omega)]
    simp only [poke]
    rw [if_neg (by omega)]

/-- The stores that do stay inside `char string[4]`: the decimal text of a
sample below 1000 and the hexadecimal text of any sample up to 1023 change no
byte outside the four bytes from `string` on. -/
theorem itoa_within_buffer (v string : Nat) (ram : Ram) (j : Nat)
    (hj : j < string ∨ string + 4 ≤ j) :
    (v ≤ 999 → itoa v string 10 ram j = ram j) ∧
      (v ≤ 1023 → itoa v string 16 ram j = ram j) := by
  constructor
  · intro hv
    have hlen : (itoa_text v 10).length ≤ 3 := by
      rw [itoa_text_of_lt v 10 (by norm_num) (by norm_num) (by omega), List.length_reverse]
      exact itoa_loop_length_le 10 16 3 v (by norm_num) (by norm_num) (by omega)
    exact store_string_outside _ _ _ _ (by omega)
  · intro hv
    have hlen := (itoa_text_hex_length v hv).2
    exact store_string_outside _ _ _ _ (by omega)

/-! ## Proofs: display -/

theorem foldl_putc_other_row (s : List Char) (d : Lcd) (col row : Nat) (h : row ≠ d.y) :
    (s.foldl lcd_putc d).cells col row = d.cells col row := by
  induction s generalizing d with
  | nil => rfl
  | cons c cs ih =>
    rw [List.foldl_cons, ih (lcd_putc d c) h]
    simp [lcd_putc, h]

theorem lcd_puts_other_row (s : List Char) (d : Lcd) (col row : Nat) (h : row ≠ d.y) :
    (lcd_puts s d).cells col row = d.cells col row := by
  simp only [lcd_puts]
  exact foldl_putc_other_row s d col row h

theorem write_label_row0 (name : String) (d : Lcd) (x n : Nat) :
    lcd_read (write_label name d) x 0 n = lcd_read d x 0 n := by
  simp only [lcd_read, write_label]
  congr 1
  funext i
  rw [lcd_puts_other_row _ _ _ _ (by simp [lcd_gotoxy]), lcd_gotoxy,
    lcd_puts_other_row _ _ _ _ (by simp [lcd_gotoxy])]
  rfl

theorem write_labels_row0 (string : Nat) (d : Lcd) (x n : Nat) :
    lcd_read (write_labels string d) x 0 n = lcd_read d x 0 n := by
  simp only [write_labels]
  split <;> simp only [write_label_row0]

theorem c_lt_chain (lo p hi : Nat) (h : 1 < hi) : c_lt (c_lt lo p) hi = 1 := by
  unfold c_lt
  by_cases hlo : lo < p
  · rw [if_pos hlo, if_pos h]
  · rw [if_neg hlo, if_pos (by omega)]

/-- The five `if` statements with their conditions evaluated. -/
theorem ISR_ADC_labels_eq (string : Nat) (lcd : Lcd) :
    ISR_ADC_labels string lcd = write_labels string lcd := by
  simp only [ISR_ADC_labels, c_lt_chain _ _ _ (show 1 < 110 by norm_num),
    c_lt_chain _ _ _ (show 1 < 260 by norm_num), c_lt_chain _ _ _ (show 1 < 420 by norm_num),
    c_lt_chain _ _ _ (show 1 < 650 by norm_num), write_labels, c_eq]
  by_cases h : string = 1023 <;> simp [h]

/-- When the decimal and the hexadecimal text fit the array with their `NUL`,
the handler returns, and its effect is that of the driver calls with every
condition evaluated. -/
theorem ISR_ADC_eq (ADC string : Nat) (ram : Ram) (lcd : Lcd)
    (hd : (itoa_text (ADC % 2 ^ 16) 10).length + 1 ≤ 4)
    (hh : (itoa_text (ADC % 2 ^ 16) 16).length + 1 ≤ 4) :
    ISR_ADC ADC string ram lcd =
      some (itoa (ADC % 2 ^ 16) string 10
              (itoa (ADC % 2 ^ 16) string 16 (itoa (ADC % 2 ^ 16) string 10 ram)),
            write_labels string
              (write_values (itoa_text (ADC % 2 ^ 16) 10) (itoa_text (ADC % 2 ^ 16) 16) lcd)) := by
  simp only [ISR_ADC, itoa_array, if_pos hd, if_pos hh, c_string_itoa, ISR_ADC_labels_eq,
    write_values, Option.bind_eq_bind, Option.some_bind, Option.pure_def]

/-- When the decimal text and its `NUL` need more than the four bytes of the
array, the first `itoa` call of the handler stores behind the array. -/
theorem ISR_ADC_overrun (ADC string : Nat) (ram : Ram) (lcd : Lcd)
    (hd : 4 < (itoa_text (ADC % 2 ^ 16) 10).length + 1) :
    ISR_ADC ADC string ram lcd = none := by
  simp only [ISR_ADC, itoa_array, if_neg (Nat.not_le.mpr hd), Option.bind_eq_bind,
    Option.none_bind]

theorem itoa_text_fits_below_1000 (v : Nat) (hv : v ≤ 999) :
    (itoa_text (v % 2 ^ 16) 10).length + 1 ≤ 4 ∧ (itoa_text (v % 2 ^ 16) 16).length + 1 ≤ 4 := by
  have hmod : v % 2 ^ 16 = v := Nat.mod_eq_of_lt (by omega)
  rw [hmod]
  constructor
  · rw [itoa_text_of_lt v 10 (by norm_num) (by norm_num) (by omega), List.length_reverse]
    have := itoa_loop_length_le 10 16 3 v (by norm_num) (by norm_num) (by omega)
    omega
  · have := (itoa_text_hex_length v (by omega)).2
    omega

theorem itoa_text_four_digits (v : Nat) (h1 : 1000 ≤ v) (h2 : v ≤ 1023) :
    (itoa_text (v % 2 ^ 16) 10).length = 4 := by
  interval_cases v <;> decide

theorem label_write_labels (string : Nat) (d : Lcd) :
    label (write_labels string d) =
      pad_right 5 (if string = 1023 then "none" else "right").toList := by
  by_cases h : string = 1023 <;>
    simp [h, write_labels, write_label, lcd_puts, lcd_putc, lcd_gotoxy, label, lcd_read,
      pad_right, List.range, List.range.loop]

theorem lcd_puts_log (s : List Char) (d : Lcd) :
    (lcd_puts s d).log = d.log ++ [(d.x, d.y, s)] := rfl

theorem log_write_label (name : String) (d : Lcd) :
    (write_label name d).log = d.log ++ [(8, 1, "     ".toList), (8, 1, name.toList)] := by
  simp [write_label, lcd_puts_log, lcd_gotoxy]

theorem log_write_labels (string : Nat) (d : Lcd) :
    (write_labels string d).log = d.log ++
      ([(8, 1, "     ".toList), (8, 1, "up".toList), (8, 1, "     ".toList),
        (8, 1, "down".toList), (8, 1, "     ".toList), (8, 1, "left".toList),
        (8, 1, "     ".toList), (8, 1, "right".toList)] ++
       if string = 1023 then [(8, 1, "     ".toList), (8, 1, "none".toList)] else []) := by
  by_cases h : string = 1023 <;> simp [h, write_labels, log_write_label]

theorem log_write_values (dec hex : List Char) (d : Lcd) :
    (write_values dec hex d).log = d.log ++
      [(8, 0, "    ".toList), (8, 0, dec), (13, 0, "   ".toList), (13, 0, hex)] := by
  simp [write_values, lcd_puts_log, lcd_gotoxy]

theorem list_length_le_four {α : Type} (l : List α) (h : l.length ≤ 4) :
    l = [] ∨ (∃ a, l = [a]) ∨ (∃ a b, l = [a, b]) ∨ (∃ a b c, l = [a, b, c]) ∨
      ∃ a b c e, l = [a, b, c, e] := by
  match l, h with
  | [], _ => simp
  | [a], _ => simp
  | [a, b], _ => simp
  | [a, b, c], _ => simp
  | [a, b, c, e], _ => simp
  | _ :: _ :: _ :: _ :: _ :: _, h => simp at h

theorem read_write_values (dec hex : List Char) (hd : dec.length ≤ 4) (hh : hex.length ≤ 3)
    (d : Lcd) :
    lcd_read (write_values dec hex d) 8 0 4 = pad_right 4 dec ∧
      lcd_read (write_values dec hex d) 13 0 3 = pad_right 3 hex := by
  rcases list_length_le_four dec hd with rfl | ⟨a, rfl⟩ | ⟨a, b, rfl⟩ | ⟨a, b, c, rfl⟩ |
      ⟨a, b, c, e, rfl⟩ <;>
    rcases list_length_le_four hex (by omega) with rfl | ⟨p, rfl⟩ | ⟨p, q, rfl⟩ |
      ⟨p, q, r, rfl⟩ | ⟨p, q, r, t, rfl⟩ <;>
    first
    | (simp at hh; done)
    | simp [write_values, lcd_puts, lcd_putc, lcd_gotoxy, lcd_read, pad_right, List.range,
        List.range.loop]

/-! ## Results: the ADC complete handler -/

/-- Claim C5: for every sample `v` in [0, 1023], the string `itoa(v, string, 10)`
leaves in memory reads as the decimal number `v` and the string
`itoa(v, string, 16)` leaves reads as the hexadecimal number `v`; 95 gives
"95" and "5f", 1023 gives "1023" and "3ff". -/
theorem decimal_hex_consistent (v : Nat) (hv : v ≤ 1023) (string : Nat) (ram : Ram) :
    ((c_string (itoa v string 10 ram) string).bind decimal_to_int = some v ∧
      (c_string (itoa v string 16 ram) string).bind hex_to_int = some v) ∧
    (itoa_text 95 10 = "95".toList ∧ itoa_text 95 16 = "5f".toList) ∧
    (itoa_text 1023 10 = "1023".toList ∧ itoa_text 1023 16 = "3ff".toList) := by
  refine ⟨⟨?_, ?_⟩, ⟨by decide, by decide⟩, ⟨by decide, by decide⟩⟩
  · rw [c_string_itoa, Option.some_bind,
      itoa_text_of_lt v 10 (by norm_num) (by norm_num) (by omega)]
    exact parse_radix_itoa_loop 10 (by norm_num) (by norm_num) v (by omega)
  · rw [c_string_itoa, Option.some_bind,
      itoa_text_of_lt v 16 (by norm_num) (by norm_num) (by omega)]
    exact parse_radix_itoa_loop 16 (by norm_num) (by norm_num) v (by omega)

/-- Witness for C5 at the sample 1023, with the buffer at address 2272 of a
memory filled with `'z'`. -/
theorem decimal_hex_consistent_witness :
    1023 ≤ 1023 ∧
    ((c_string (itoa 1023 2272 10 (fun _ => 'z')) 2272).bind decimal_to_int = some 1023 ∧
      (c_string (itoa 1023 2272 16 (fun _ => 'z')) 2272).bind hex_to_int = some 1023) ∧
    (itoa_text 95 10 = "95".toList ∧ itoa_text 95 16 = "5f".toList) ∧
    (itoa_text 1023 10 = "1023".toList ∧ itoa_text 1023 16 = "3ff".toList) :=
  ⟨by decide, decimal_hex_consistent 1023 (by decide) 2272 (fun _ => 'z')⟩

/-- The value fields for the samples whose texts fit the array: for every
sample `v` in [0, 999] and every prior display, the handler returns and leaves
in cells 8..11 of row 0 the decimal text of `v`, left-aligned and filled up
with spaces, and in cells 13..15 of row 0 the hexadecimal text of `v`,
left-aligned and filled up with spaces. -/
theorem value_fields_below_1000 (v : Nat) (hv : v ≤ 999) (string : Nat) (ram : Ram)
    (lcd : Lcd) :
    ∃ ram1 lcd1, ISR_ADC v string ram lcd = some (ram1, lcd1) ∧
      lcd_read lcd1 8 0 4 = pad_right 4 (itoa_text v 10) ∧
      lcd_read lcd1 13 0 3 = pad_right 3 (itoa_text v 16) := by
  have hmod : v % 2 ^ 16 = v := Nat.mod_eq_of_lt (by omega)
  have hfit := itoa_text_fits_below_1000 v hv
  have hd := (itoa_text_dec_length v (by omega)).2
  have hh := (itoa_text_hex_length v (by omega)).2
  refine ⟨_, _, ISR_ADC_eq v string ram lcd hfit.1 hfit.2, ?_, ?_⟩
  · rw [write_labels_row0, hmod]
    exact (read_write_values _ _ hd hh lcd).1
  · rw [write_labels_row0, hmod]
    exact (read_write_values _ _ hd hh lcd).2

/-- The hexadecimal text of 1023 and of 1000 once the low byte of the value
is cleared, as a `NUL` stored on it does: both read "300". -/
theorem hex_text_low_byte_cleared :
    itoa_text (1023 - 1023 % 256) 16 = "300".toList ∧
      itoa_text (1000 - 1000 % 256) 16 = "300".toList := by
  decide

/-- Claim C6 does not hold of the code: for every sample `v` from 1000 to
1023 the decimal text and its `NUL` take five bytes, so the first `itoa` call
of the handler stores behind `char string[4]` and the run, the content of the
value fields included, is not defined by the source. -/
theorem value_fields_overrun (v : Nat) (h1 : 1000 ≤ v) (h2 : v ≤ 1023) (string : Nat)
    (ram : Ram) (lcd : Lcd) :
    (itoa_text v 10).length + 1 = 5 ∧ ISR_ADC v string ram lcd = none := by
  have hmod : v % 2 ^ 16 = v := Nat.mod_eq_of_lt (by omega)
  have hlen := itoa_text_four_digits v h1 h2
  refine ⟨by rw [hmod] at hlen; omega, ISR_ADC_overrun v string ram lcd (by omega)⟩

/-- Witness for the C6 theorem at the sample 1000 on the display `main`
leaves. -/
theorem value_fields_overrun_witness :
    1000 ≤ 1000 ∧ 1000 ≤ 1023 ∧ (itoa_text 1000 10).length + 1 = 5 ∧
      ISR_ADC 1000 2272 (fun _ => 'z') main_display = none :=
  ⟨by decide, by decide,
    value_fields_overrun 1000 (by decide) (by decide) 2272 (fun _ => 'z') main_display⟩

/-- Claim C1 does not hold of the code: at the sample 95, with `string` at
address 2272, the handler leaves the label "right" on every prior display,
and that is not the label "up". -/
theorem label_at_sample_95 (ram : Ram) (lcd : Lcd) :
    (ISR_ADC 95 2272 ram lcd).map (fun r => label r.2) = some "right".toList ∧
      "right".toList ≠ pad_right 5 "up".toList := by
  refine ⟨?_, by decide⟩
  rw [ISR_ADC_eq _ _ _ _ (by decide) (by decide), Option.map_some', label_write_labels]
  decide

/-- Claim C2 does not hold of the code: at the sample 1023 the decimal text
and its `NUL` take five bytes, so the first `itoa` call stores behind
`char string[4]` and the source does not define the run; and the five `if`
statements, in whatever state they run with `string` at address 2272, leave
the label "right", not "none", because `string == 1023` tests the address. -/
theorem label_at_sample_1023 (ram : Ram) (lcd : Lcd) :
    ISR_ADC 1023 2272 ram lcd = none ∧
      label (ISR_ADC_labels 2272 lcd) = "right".toList ∧
      "right".toList ≠ pad_right 5 "none".toList := by
  refine ⟨ISR_ADC_overrun 1023 2272 ram lcd (by decide), ?_, by decide⟩
  rw [ISR_ADC_labels_eq, label_write_labels]
  decide

/-- Claim C3 does not hold of the code: at the unmatched sample 300, on the
display `main` leaves (label field "c"), the handler makes eight `lcd_puts`
calls on row 1 and the label field reads "right" afterwards. -/
theorem label_rewritten_at_sample_300 (ram : Ram) :
    label main_display = pad_right 5 "c".toList ∧
    (ISR_ADC 300 2272 ram main_display).map (fun r => label r.2) = some "right".toList ∧
    (ISR_ADC 300 2272 ram main_display).map
        (fun r => (r.2.log.drop main_display.log.length).filter (fun e => e.2.1 = 1)) =
      some [(8, 1, "     ".toList), (8, 1, "up".toList), (8, 1, "     ".toList),
        (8, 1, "down".toList), (8, 1, "     ".toList), (8, 1, "left".toList),
        (8, 1, "     ".toList), (8, 1, "right".toList)] := by
  refine ⟨by decide, ?_, ?_⟩
  · rw [ISR_ADC_eq _ _ _ _ (by decide) (by decide), Option.map_some', label_write_labels]
    decide
  · rw [ISR_ADC_eq _ _ _ _ (by decide) (by decide), Option.map_some', log_write_labels,
      log_write_values]
    simp [List.drop_append, List.filter]

/-- Claim C9 does not hold of the code: `itoa(1000, string, 10)` stores five
bytes, "1000" and the terminating `NUL`; the fifth lands at `string + 4`,
behind the last element of `char string[4]`, whatever was there before. -/
theorem itoa_decimal_overruns_buffer (string : Nat) (ram : Ram) :
    (List.range 5).map (fun i => itoa 1000 string 10 ram (string + i)) =
      ['1', '0', '0', '0', NUL] := by
  have h : itoa_text 1000 10 = ['1', '0', '0', '0'] := by decide
  rw [itoa, h]
  simp only [store_string, poke, List.range, List.range.loop, List.map_cons, List.map_nil,
    Nat.add_zero]
  have e1 : ¬ string = string + 1 := by omega
  have e2 : ¬ string = string + 1 + 1 := by omega
  have e3 : ¬ string = string + 1 + 1 + 1 := by omega
  have e4 : ¬ string = string + 1 + 1 + 1 + 1 := by omega
  simp [e1, e2, e3, e4]

end Lab5Adc
